import Mathlib

/-!
Verification of the env-change browser extension core
(domain matching, selector synthesis, interactive picker,
element waiting, field filling, navigation handoff).

The definitions are shallow embeddings of the TypeScript sources
(`src/storage.ts`, `src/content/switcher.ts`, the element-selector
content module); theorems check the specification's claims against them.

JavaScript strings are modelled as `List Char` (`Str`), so that every
operation is kernel-computable; `String.data` injects Lean string
literals.
-/

namespace EnvChange

/-- JS strings, modelled as lists of characters. -/
abbrev Str := List Char

/-- `String.prototype.trim()`: strip leading and trailing whitespace. -/
def jsTrim (s : Str) : Str :=
  ((s.dropWhile Char.isWhitespace).reverse.dropWhile Char.isWhitespace).reverse

/-- `String.prototype.toLowerCase()` (ASCII range, which covers hostnames,
tag names and the patterns the sources use). -/
def jsToLower (s : Str) : Str := s.map Char.toLower

/-! ## Domain matching (`src/storage.ts`) -/

/-- Embeds `matchDomain(hostname, pattern)` from `src/storage.ts`:
trims and lowercases the pattern, lowercases the hostname; a `*.`-prefixed
pattern matches the base domain itself or any hostname ending in
`"." + base`; otherwise exact equality. -/
def matchDomain (hostname pattern : Str) : Bool :=
  let pattern := jsToLower (jsTrim pattern)
  let hostname := jsToLower hostname
  if ("*.".data).isPrefixOf pattern then
    let baseDomain := pattern.drop 2
    hostname == baseDomain || ((".".data) ++ baseDomain).isSuffixOf hostname
  else
    hostname == pattern

/-- Embeds `isCurrentDomainAllowed(allowedDomains)` from `src/storage.ts`;
the current hostname (`window.location.hostname`) is passed explicitly.
`none` models the `undefined` list. -/
def isCurrentDomainAllowed (hostname : Str)
    (allowedDomains : Option (List Str)) : Bool :=
  match allowedDomains with
  | none => true
  | some l => if l.isEmpty then true else l.any (fun pattern => matchDomain hostname pattern)

/-- Spec-side rendering of the matching contract of §4.6, written from the
spec's words: matching is case-insensitive; a `*.`-prefixed pattern matches
when the hostname equals the remainder or ends with `.` + remainder; any
other pattern requires an exact hostname match after trimming whitespace. -/
def specMatchDomain (hostname pattern : Str) : Bool :=
  let p := jsToLower (jsTrim pattern)
  let h := jsToLower hostname
  if ("*.".data).isPrefixOf p then
    h == p.drop 2 || ((".".data) ++ p.drop 2).isSuffixOf h
  else
    h == p

/-- Spec-side `isAllowed`: absent or empty pattern list means always
allowed; otherwise allowed iff the hostname matches at least one pattern. -/
def specIsAllowed (hostname : Str) (allowedDomains : Option (List Str)) : Bool :=
  match allowedDomains with
  | none => true
  | some [] => true
  | some l => l.any (fun pattern => specMatchDomain hostname pattern)

theorem matchDomain_eq_spec (hostname pattern : Str) :
    matchDomain hostname pattern = specMatchDomain hostname pattern := rfl

/-- C6: `isCurrentDomainAllowed` returns true for every hostname when the
pattern list is absent or empty; otherwise it returns true iff the hostname
matches at least one pattern, with case-insensitive matching, `*.`-wildcard
suffix matching, and exact matching after trimming for other patterns; in
particular `*.example.com` matches `a.example.com` and `example.com` but not
`notexample.com`. -/
theorem isCurrentDomainAllowed_eq_spec :
    (∀ (hostname : Str) (allowedDomains : Option (List Str)),
      isCurrentDomainAllowed hostname allowedDomains = specIsAllowed hostname allowedDomains)
    ∧ matchDomain "a.example.com".data "*.example.com".data = true
    ∧ matchDomain "example.com".data "*.example.com".data = true
    ∧ matchDomain "notexample.com".data "*.example.com".data = false := by
  refine ⟨fun hostname allowedDomains => ?_, by decide, by decide, by decide⟩
  cases allowedDomains with
  | none => rfl
  | some l => cases l <;> rfl

/-! ## Data model (`src/types.ts`) -/

/-- `FieldConfig` from `src/types.ts`. -/
structure FieldConfig where
  id : Str
  selector : Str
  value : Str
  label : Str
deriving DecidableEq, Repr

/-- `EnvConfig` from `src/types.ts`. -/
structure EnvConfig where
  id : Str
  name : Str
  loginUrl : Str
  fields : List FieldConfig
  loginButtonSelector : Option Str
deriving DecidableEq, Repr

/-- The pending-fill payload written by `switchEnvironment` and read back by
`checkAndFillPending` (`src/content/switcher.ts`). -/
structure PendingFillPayload where
  envId : Str
  fields : List FieldConfig
  loginButtonSelector : Option Str
  timestamp : Nat
deriving DecidableEq, Repr

/-! ## Navigation handoff (`src/content/switcher.ts`)

The switch and resume phases are embedded as functions producing the
sequence of externally observable operations they perform, in program
order.  `fillField`'s internal behaviour is modelled separately for C5;
here its per-field outcome is an abstract boolean, which is what the
callers observe (and ignore). -/

/-- Observable operations of the switch phase, in program order. -/
inductive SwitchOp
  | clearLocalStorage
  | clearSessionStorage
  | stagePendingFill (payload : PendingFillPayload)
  | navigate (url : Str)
deriving DecidableEq, Repr

/-- Embeds `switchEnvironment(env)`: builds the payload (with the current
instant `now` for `Date.now()`), clears localStorage then sessionStorage,
stages the payload into `chrome.storage.local`, then navigates to the
login URL. -/
def switchEnvironment (env : EnvConfig) (now : Nat) : List SwitchOp :=
  let fillData : PendingFillPayload :=
    { envId := env.id, fields := env.fields,
      loginButtonSelector := env.loginButtonSelector, timestamp := now }
  [.clearLocalStorage, .clearSessionStorage, .stagePendingFill fillData,
   .navigate env.loginUrl]

/-- Observable operations of the resume phase, in program order. -/
inductive ResumeOp
  | readPendingFill
  | removePendingFill
  | sleep (ms : Nat)
  | fillFieldOp (f : FieldConfig) (ok : Bool)
  | clickLoginButton (selector : Str)
deriving DecidableEq, Repr

/-- Embeds `fillAllFields(fields)`: fills each field in order (the
per-field result `results f` is ignored by the loop) with a 100 ms delay
after each fill. -/
def fillAllFieldsTrace (results : FieldConfig → Bool) :
    List FieldConfig → List ResumeOp
  | [] => []
  | f :: rest => .fillFieldOp f (results f) :: .sleep 100 :: fillAllFieldsTrace results rest

/-- The state of the `env-switch-pending-fill` storage cell as the resume
phase observes it: absent (or not a string), a string `JSON.parse` throws
on, or a string parsing to a payload. -/
inductive PendingCell
  | empty
  | malformed
  | payload (p : PendingFillPayload)
deriving DecidableEq, Repr

/-- Embeds `checkAndFillPending()`: reads the pending-fill cell; returns
if it is absent; parses it (a parse failure is caught, performing nothing
further); removes the cell and stops when the payload is older than
10,000 ms; otherwise sleeps 500 ms, fills all fields, removes the cell,
and, when a login-button selector is present, sleeps 300 ms and clicks it. -/
def checkAndFillPending (cell : PendingCell) (now : Nat)
    (results : FieldConfig → Bool) : List ResumeOp :=
  .readPendingFill ::
  match cell with
  | .empty => []
  | .malformed => []
  | .payload p =>
    if now - p.timestamp > 10000 then
      [.removePendingFill]
    else
      .sleep 500 :: fillAllFieldsTrace results p.fields ++ [.removePendingFill] ++
      (match p.loginButtonSelector with
       | some sel => [.sleep 300, .clickLoginButton sel]
       | none => [])

/-- Concrete field used by witnesses and counterexamples. -/
def fieldA : FieldConfig :=
  { id := "f1".data, selector := "#a".data, value := "x".data, label := "user".data }

/-- Concrete payload (timestamp 0) used by witnesses and counterexamples. -/
def payloadA : PendingFillPayload :=
  { envId := "env1".data, fields := [fieldA], loginButtonSelector := none, timestamp := 0 }

theorem mem_fillAllFieldsTrace (results : FieldConfig → Bool)
    (fields : List FieldConfig) (f : FieldConfig) (h : f ∈ fields) :
    ResumeOp.fillFieldOp f (results f) ∈ fillAllFieldsTrace results fields := by
  induction fields with
  | nil => simp at h
  | cons g rest ih =>
    rcases List.mem_cons.mp h with h' | h'
    · subst h'; simp [fillAllFieldsTrace]
    · simp [fillAllFieldsTrace, ih h']

theorem mem_fillAllFieldsTrace_shape (results : FieldConfig → Bool)
    (fields : List FieldConfig) (op : ResumeOp)
    (h : op ∈ fillAllFieldsTrace results fields) :
    (∃ f, f ∈ fields ∧ op = .fillFieldOp f (results f)) ∨ op = .sleep 100 := by
  induction fields with
  | nil => simp [fillAllFieldsTrace] at h
  | cons g rest ih =>
    simp only [fillAllFieldsTrace, List.mem_cons] at h
    rcases h with h | h | h
    · exact .inl ⟨g, by simp, h⟩
    · exact .inr h
    · rcases ih h with ⟨f, hf, rfl⟩ | h'
      · exact .inl ⟨f, by simp [hf], rfl⟩
      · exact .inr h'

/-- C1 (counterexample): a payload whose age is exactly 10,000 ms IS
applied by `checkAndFillPending` (its field is filled), contrary to the
claim that age 10,000 ms is treated as expired. -/
theorem checkAndFillPending_age_10000_applied :
    10000 - payloadA.timestamp = 10000 ∧
    ResumeOp.fillFieldOp fieldA true ∈
      checkAndFillPending (.payload payloadA) 10000 (fun _ => true) := by
  constructor
  · rfl
  · simp [checkAndFillPending, payloadA, fillAllFieldsTrace]

/-- C1 (amended): a pending payload read in the resume phase is applied
(each of its fields is filled) iff its age `now - timestamp` is at most
10,000 ms; at age 10,001 ms and beyond it is discarded without filling. -/
theorem checkAndFillPending_applied_iff_age_le (p : PendingFillPayload) (now : Nat)
    (results : FieldConfig → Bool) (f : FieldConfig) (hf : f ∈ p.fields) :
    (ResumeOp.fillFieldOp f (results f) ∈ checkAndFillPending (.payload p) now results)
      ↔ now - p.timestamp ≤ 10000 := by
  constructor
  · intro hmem
    by_contra hgt
    have hexp : now - p.timestamp > 10000 := Nat.lt_of_not_le hgt
    simp [checkAndFillPending, hexp] at hmem
  · intro hle
    have hexp : ¬ (now - p.timestamp > 10000) := Nat.not_lt.mpr hle
    simp only [checkAndFillPending, hexp, if_false]
    refine List.mem_cons_of_mem _ (List.mem_cons_of_mem _ ?_)
    exact List.mem_append_left _ (List.mem_append_left _ (mem_fillAllFieldsTrace results p.fields f hf))

/-- Witness for `checkAndFillPending_applied_iff_age_le` at a concrete
payload, field and clock. -/
theorem checkAndFillPending_applied_iff_age_le_witness :
    fieldA ∈ payloadA.fields ∧
    ResumeOp.fillFieldOp fieldA true ∈
      checkAndFillPending (.payload payloadA) 9999 (fun _ => true) :=
  ⟨by decide,
   (checkAndFillPending_applied_iff_age_le payloadA 9999 (fun _ => true) fieldA
      (by decide)).mpr (by decide)⟩

/-- C2: when the stored pending-fill value is a string that fails to
parse, the resume phase never removes the cell: a second page load reads
the same payload again.  (With a well-formed payload, removal also happens
only after the settle delay and the whole `fillAllFields` run, not
immediately after the read.) -/
theorem checkAndFillPending_malformed_never_removed (now : Nat)
    (results : FieldConfig → Bool) :
    ResumeOp.removePendingFill ∉ checkAndFillPending .malformed now results := by
  simp [checkAndFillPending]

/-- Recognizes a field-fill operation in a resume trace. -/
def isFillOp : ResumeOp → Bool
  | .fillFieldOp _ _ => true
  | _ => false

theorem fills_before_clicks_of_split (A B : List ResumeOp)
    (hA : ∀ s, ResumeOp.clickLoginButton s ∉ A)
    (hB : ∀ f ok, ResumeOp.fillFieldOp f ok ∉ B) :
    ∀ (i j : Nat) (f : FieldConfig) (ok : Bool) (s : Str),
      (A ++ B)[i]? = some (ResumeOp.fillFieldOp f ok) →
      (A ++ B)[j]? = some (ResumeOp.clickLoginButton s) → i < j := by
  intro i j f ok s hi hj
  have hiA : i < A.length := by
    by_contra hge
    have hge' : A.length ≤ i := Nat.le_of_not_lt hge
    rw [List.getElem?_append, if_neg (Nat.not_lt.mpr hge')] at hi
    exact hB f ok (List.getElem?_mem hi)
  have hjA : A.length ≤ j := by
    by_contra hlt
    have hlt' : j < A.length := Nat.lt_of_not_le hlt
    rw [List.getElem?_append, if_pos hlt'] at hj
    exact hA s (List.getElem?_mem hj)
  exact Nat.lt_of_lt_of_le hiA hjA

theorem filter_fillAllFieldsTrace (results : FieldConfig → Bool)
    (fields : List FieldConfig) :
    (fillAllFieldsTrace results fields).filter isFillOp
      = fields.map (fun f => .fillFieldOp f (results f)) := by
  induction fields with
  | nil => rfl
  | cons g rest ih => simp [fillAllFieldsTrace, List.filter, isFillOp, ih]

theorem fillAllFieldsTrace_getElem (results : FieldConfig → Bool)
    (fields : List FieldConfig) (i : Nat) (h : i < fields.length) :
    (fillAllFieldsTrace results fields)[2*i]?
        = (fields[i]?).map (fun f => .fillFieldOp f (results f)) ∧
      (fillAllFieldsTrace results fields)[2*i+1]? = some (.sleep 100) := by
  induction fields generalizing i with
  | nil => simp at h
  | cons g rest ih =>
    cases i with
    | zero => simp [fillAllFieldsTrace]
    | succ k =>
      have hk : k < rest.length := Nat.lt_of_succ_lt_succ h
      rw [show 2 * (k + 1) + 1 = 2 * k + 1 + 1 + 1 by ring,
          show 2 * (k + 1) = 2 * k + 1 + 1 by ring]
      simp only [fillAllFieldsTrace, List.getElem?_cons_succ]
      exact ih k hk

/-- C8: `fillAllFields` fills the fields in the array's declared order —
the fill at rank `i` targets `fields[i]` and is followed by the fixed
100 ms delay — proceeds through the full sequence whatever the individual
results are (the fill subsequence of the trace is exactly the whole field
list, for every per-field outcome function), and in the resume phase every
field fill precedes any login-button click. -/
theorem fillAllFields_order_and_click_last :
    (∀ (results : FieldConfig → Bool) (fields : List FieldConfig),
      (fillAllFieldsTrace results fields).filter isFillOp
        = fields.map (fun f => .fillFieldOp f (results f)))
    ∧ (∀ (results : FieldConfig → Bool) (fields : List FieldConfig) (i : Nat),
        i < fields.length →
        (fillAllFieldsTrace results fields)[2*i]?
            = (fields[i]?).map (fun f => .fillFieldOp f (results f)) ∧
          (fillAllFieldsTrace results fields)[2*i+1]? = some (.sleep 100))
    ∧ (∀ (cell : PendingCell) (now : Nat) (results : FieldConfig → Bool)
        (i j : Nat) (f : FieldConfig) (ok : Bool) (s : Str),
        (checkAndFillPending cell now results)[i]? = some (ResumeOp.fillFieldOp f ok) →
        (checkAndFillPending cell now results)[j]? = some (ResumeOp.clickLoginButton s) →
        i < j) := by
  refine ⟨filter_fillAllFieldsTrace, fillAllFieldsTrace_getElem, ?_⟩
  intro cell now results i j f ok s
  have key : ∀ (A B : List ResumeOp), checkAndFillPending cell now results = A ++ B →
      (∀ s', ResumeOp.clickLoginButton s' ∉ A) →
      (∀ f' ok', ResumeOp.fillFieldOp f' ok' ∉ B) →
      (checkAndFillPending cell now results)[i]? = some (ResumeOp.fillFieldOp f ok) →
      (checkAndFillPending cell now results)[j]? = some (ResumeOp.clickLoginButton s) →
      i < j := by
    intro A B hsplit hA hB hi hj
    rw [hsplit] at hi hj
    exact fills_before_clicks_of_split A B hA hB i j f ok s hi hj
  cases cell with
  | empty =>
    exact key [.readPendingFill] [] (by simp [checkAndFillPending]) (by simp) (by simp)
  | malformed =>
    exact key [.readPendingFill] [] (by simp [checkAndFillPending]) (by simp) (by simp)
  | payload p =>
    by_cases hexp : now - p.timestamp > 10000
    · exact key [.readPendingFill, .removePendingFill] []
        (by simp [checkAndFillPending, hexp]) (by simp) (by simp)
    · have hnoclick : ∀ s', ResumeOp.clickLoginButton s'
          ∉ [ResumeOp.readPendingFill, ResumeOp.sleep 500]
            ++ fillAllFieldsTrace results p.fields ++ [ResumeOp.removePendingFill] := by
        intro s' hmem
        rcases List.mem_append.mp hmem with hmem' | h
        · rcases List.mem_append.mp hmem' with h | h
          · simp at h
          · rcases mem_fillAllFieldsTrace_shape results p.fields _ h with ⟨f', _, h'⟩ | h' <;>
              simp at h'
        · simp at h
      cases hsel : p.loginButtonSelector with
      | none =>
        refine key ([.readPendingFill, .sleep 500]
            ++ fillAllFieldsTrace results p.fields ++ [.removePendingFill]) []
          ?_ hnoclick (by simp)
        simp [checkAndFillPending, hexp, hsel]
      | some sel =>
        refine key ([.readPendingFill, .sleep 500]
            ++ fillAllFieldsTrace results p.fields ++ [.removePendingFill])
          [.sleep 300, .clickLoginButton sel] ?_ hnoclick ?_
        · simp [checkAndFillPending, hexp, hsel]
        · intro f' ok' hmem
          simp at hmem

/-- Witness for `fillAllFields_order_and_click_last` at a concrete field
list: the fill subsequence is the field list itself. -/
theorem fillAllFields_order_and_click_last_witness :
    (fillAllFieldsTrace (fun _ => false) [fieldA]).filter isFillOp
      = [ResumeOp.fillFieldOp fieldA false] :=
  fillAllFields_order_and_click_last.1 (fun _ => false) [fieldA]

/-- C9: in the switch phase the navigation to `loginUrl` is the final
operation; both storage clears and the staging of the payload (built from
the environment's id, fields, login-button selector and the current
instant) occur strictly before it. -/
theorem switchEnvironment_order (env : EnvConfig) (now : Nat) :
    ∃ nav : Nat, (switchEnvironment env now)[nav]? = some (SwitchOp.navigate env.loginUrl) ∧
      (∀ j op, (switchEnvironment env now)[j]? = some op → j ≤ nav) ∧
      ∃ l s st : Nat, (switchEnvironment env now)[l]? = some SwitchOp.clearLocalStorage ∧
        (switchEnvironment env now)[s]? = some SwitchOp.clearSessionStorage ∧
        (switchEnvironment env now)[st]?
          = some (SwitchOp.stagePendingFill
              { envId := env.id, fields := env.fields,
                loginButtonSelector := env.loginButtonSelector, timestamp := now }) ∧
        l < nav ∧ s < nav ∧ st < nav := by
  refine ⟨3, by simp [switchEnvironment], ?_, 0, 1, 2, by simp [switchEnvironment],
    by simp [switchEnvironment], by simp [switchEnvironment], by omega, by omega, by omega⟩
  intro j op hj
  have hlt : j < (switchEnvironment env now).length := (List.getElem?_eq_some.mp hj).1
  simp [switchEnvironment] at hlt
  omega

/-! ## DOM model

The document is modelled as a tree of elements rooted at `document.body`
(the selector code only ever walks up to `document.body` and queries
element content).  An element is addressed by the list of child indices
from the root (`Path`); `[]` is the body itself. -/

/-- An element's own data: tag name (uppercase, as `tagName`), `id` (`""`
when unset), class list, and the remaining attributes (`name`,
`placeholder`, `type`, …) as an association list (`getAttribute`). -/
structure ElemData where
  tag : Str
  idAttr : Str
  classes : List Str
  attrs : List (Str × Str)
deriving DecidableEq, Repr

instance : Inhabited ElemData := ⟨⟨[], [], [], []⟩⟩

/-- A DOM element subtree. -/
inductive DomTree
  | node (data : ElemData) (children : List DomTree)

/-- Element position: child indices from the body. -/
abbrev Path := List Nat

def DomTree.data : DomTree → ElemData
  | .node d _ => d

def DomTree.children : DomTree → List DomTree
  | .node _ cs => cs

/-- The element at a path, if the path is valid. -/
def nodeAt? : DomTree → Path → Option DomTree
  | t, [] => some t
  | .node _ cs, i :: rest => (cs[i]?).bind (fun c => nodeAt? c rest)

/-- The element data at a path (defaulting for invalid paths). -/
def nodeAtD (d : DomTree) (p : Path) : ElemData :=
  match nodeAt? d p with
  | some t => t.data
  | none => default

/-- The children of the element at a path. -/
def childrenAt (d : DomTree) (p : Path) : List DomTree :=
  match nodeAt? d p with
  | some t => t.children
  | none => []

/-- `getAttribute`: `none` models `null`. -/
def getAttr (n : ElemData) (a : Str) : Option Str :=
  (n.attrs.find? (fun kv => kv.1 == a)).map (·.2)

mutual
/-- All element paths of the document in document (preorder) order. -/
def allPaths : DomTree → List Path
  | .node _ cs => [] :: allPathsChildren cs 0
/-- Paths of a child list, prefixing each subtree's paths with its index. -/
def allPathsChildren : List DomTree → Nat → List Path
  | [], _ => []
  | c :: rest, i => (allPaths c).map (fun q => i :: q) ++ allPathsChildren rest (i + 1)
end

/-- `input`/`textarea` test used throughout the sources
(`el.tagName === "INPUT" || el.tagName === "TEXTAREA"`). -/
def isInputLike (n : ElemData) : Bool :=
  n.tag == "INPUT".data || n.tag == "TEXTAREA".data

/-! ## CSS selectors

The generated selectors are embedded as an AST (`Sel`) together with
their exact string rendering; the browser's `querySelectorAll` — an
external collaborator of the sources — is modelled by standard CSS
matching semantics on the AST. -/

/-- A one-compound selector candidate: `#id`, `tag[attr="value"]`, or
`tag.c1.c2...`. -/
inductive SimpleSel
  | idSel (i : Str)
  | tagAttr (tag attr value : Str)
  | tagClasses (tag : Str) (classes : List Str)
deriving DecidableEq, Repr

/-- A segment of the fallback path: `tag`, `tag:nth-child(n)`, or `#id`. -/
inductive PathSeg
  | tagSeg (t : Str)
  | tagNth (t : Str) (n : Nat)
  | idSeg (i : Str)
deriving DecidableEq, Repr

/-- A generated selector: a simple candidate or a `>`-combined path. -/
inductive Sel
  | simple (s : SimpleSel)
  | childPath (segs : List PathSeg)
deriving DecidableEq, Repr

/-- Does the element at `p` match a path segment?  `tag:nth-child(n)`
requires the element to be the `n`-th child of its parent (1-based). -/
def segMatches (d : DomTree) (p : Path) (s : PathSeg) : Bool :=
  match nodeAt? d p with
  | none => false
  | some t =>
    match s with
    | .tagSeg tg => jsToLower t.data.tag == tg
    | .idSeg i => t.data.idAttr == i
    | .tagNth tg n =>
      jsToLower t.data.tag == tg &&
      (match p.getLast? with
       | some k => k + 1 == n
       | none => false)

/-- Does the element at `p` match a simple selector? -/
def simpleMatches (d : DomTree) (p : Path) (s : SimpleSel) : Bool :=
  match nodeAt? d p with
  | none => false
  | some t =>
    match s with
    | .idSel i => t.data.idAttr == i
    | .tagAttr tg a v => jsToLower t.data.tag == tg && getAttr t.data a == some v
    | .tagClasses tg cs =>
      jsToLower t.data.tag == tg && cs.all (fun c => t.data.classes.contains c)

/-- Match a reversed `>`-path (deepest segment first) against the element
at `p`: each further segment must match the successive parent. -/
def segsRevMatch (d : DomTree) : List PathSeg → Path → Bool
  | [], _ => true
  | s :: rest, p =>
    segMatches d p s &&
    (rest.isEmpty ||
     (match p with
      | [] => false
      | _ :: _ => segsRevMatch d rest p.dropLast))

/-- Full CSS matching of a generated selector against the element at `p`. -/
def selMatches (d : DomTree) (sel : Sel) (p : Path) : Bool :=
  match sel with
  | .simple s => simpleMatches d p s
  | .childPath segs => !segs.isEmpty && segsRevMatch d segs.reverse p

/-- `document.querySelectorAll(sel)`: all matching elements in document
order. -/
def queryAll (d : DomTree) (sel : Sel) : List Path :=
  (allPaths d).filter (fun p => selMatches d sel p)

/-- `document.querySelector(sel)`: first match in document order. -/
def querySel (d : DomTree) (sel : Sel) : Option Path :=
  (queryAll d sel).head?

/-- The predicate selecting strict descendants that are input-like, used
by the `querySelector("input, textarea")` model below. -/
def innerInputPred (t : DomTree) (q : Path) : Bool :=
  !q.isEmpty &&
  (match nodeAt? t q with
   | some c => isInputLike c.data
   | none => false)

/-- `el.querySelector("input, textarea")`: the first strict descendant of
the element at `p` (document order) that is an input or textarea. -/
def firstInnerInput (d : DomTree) (p : Path) : Option Path :=
  match nodeAt? d p with
  | none => none
  | some t =>
    ((allPaths t).filter (innerInputPred t)).head?.map (fun q => p ++ q)

/-! ## Selector rendering (`CSS.escape` and string building) -/

/-- One character of `CSS.escape` (CSSOM serialize-an-identifier),
given its index and the whole string. -/
def cssEscapeCharAt (s : Str) (i : Nat) (c : Char) : Str :=
  if c = Char.ofNat 0 then [Char.ofNat 0xFFFD]
  else if c.toNat ≤ 0x1F || c.toNat == 0x7F then
    '\\' :: Nat.toDigits 16 c.toNat ++ [' ']
  else if i == 0 && c.isDigit then
    '\\' :: Nat.toDigits 16 c.toNat ++ [' ']
  else if i == 1 && c.isDigit && s.head? == some '-' then
    '\\' :: Nat.toDigits 16 c.toNat ++ [' ']
  else if i == 0 && c = '-' && s.length == 1 then ['\\', '-']
  else if c.toNat ≥ 0x80 || c = '-' || c = '_' || c.isAlphanum then [c]
  else ['\\', c]

/-- `CSS.escape(s)`, used by the synthesizer on every embedded literal. -/
def cssEscape (s : Str) : Str :=
  (s.enum.map (fun ic => cssEscapeCharAt s ic.1 ic.2)).flatten

/-- `Array.prototype.join(sep)`. -/
def strJoin (sep : Str) : List Str → Str
  | [] => []
  | [x] => x
  | x :: rest => x ++ sep ++ strJoin sep rest

/-- Render a simple candidate exactly as the source builds it:
`#esc(id)`, `tag[attr="esc(v)"]`, `tag.esc(c1).esc(c2)...`. -/
def renderSimple : SimpleSel → Str
  | .idSel i => '#' :: cssEscape i
  | .tagAttr tg a v => tg ++ "[".data ++ a ++ "=\"".data ++ cssEscape v ++ "\"]".data
  | .tagClasses tg cs => tg ++ (cs.map (fun c => '.' :: cssEscape c)).flatten

/-- Render a fallback-path segment. -/
def renderSeg : PathSeg → Str
  | .tagSeg t => t
  | .tagNth t n => t ++ ":nth-child(".data ++ Nat.toDigits 10 n ++ ")".data
  | .idSeg i => '#' :: cssEscape i

/-- Render a generated selector; the fallback path is joined with
`" > "` (`path.join(" > ")` in the source). -/
def renderSel : Sel → Str
  | .simple s => renderSimple s
  | .childPath segs => strJoin " > ".data (segs.map renderSeg)

/-! ## Selector synthesis (element-selector content module) -/

/-- The unstable-class patterns `UNSTABLE_CLASS_PATTERNS`: prefixes
`css-`, `sc-`, `emotion-`, and CSS-module names (underscore followed by
one or more alphanumerics, to the end). -/
def isStableClass (c : Str) : Bool :=
  !(("css-".data).isPrefixOf c || ("sc-".data).isPrefixOf c ||
    ("emotion-".data).isPrefixOf c ||
    (match c with
     | '_' :: rest => !rest.isEmpty && rest.all Char.isAlphanum
     | _ => false))

/-- The `name`-attribute candidate: `tag[name="..."]`, accepted only when
the attribute is truthy (non-null, non-empty) and the selector resolves to
exactly one element. -/
def tryName (d : DomTree) (p : Path) : Option Sel :=
  let n := nodeAtD d p
  match getAttr n "name".data with
  | some name =>
    if name.isEmpty then none
    else
      let sel := Sel.simple (.tagAttr (jsToLower n.tag) "name".data name)
      if (queryAll d sel).length == 1 then some sel else none
  | none => none

/-- The class candidate: `tag.c1.c2...` over the stable classes, accepted
only when at least one stable class remains and the selector resolves to
exactly one element. -/
def tryClasses (d : DomTree) (p : Path) : Option Sel :=
  let n := nodeAtD d p
  if n.classes.length > 0 then
    let stableClasses := n.classes.filter isStableClass
    if stableClasses.length > 0 then
      let sel := Sel.simple (.tagClasses (jsToLower n.tag) stableClasses)
      if (queryAll d sel).length == 1 then some sel else none
    else none
  else none

/-- The `placeholder`-attribute candidate. -/
def tryPlaceholder (d : DomTree) (p : Path) : Option Sel :=
  let n := nodeAtD d p
  match getAttr n "placeholder".data with
  | some v =>
    if v.isEmpty then none
    else
      let sel := Sel.simple (.tagAttr (jsToLower n.tag) "placeholder".data v)
      if (queryAll d sel).length == 1 then some sel else none
  | none => none

/-- The `type`-attribute candidate. -/
def tryType (d : DomTree) (p : Path) : Option Sel :=
  let n := nodeAtD d p
  match getAttr n "type".data with
  | some v =>
    if v.isEmpty then none
    else
      let sel := Sel.simple (.tagAttr (jsToLower n.tag) "type".data v)
      if (queryAll d sel).length == 1 then some sel else none
  | none => none

/-- The per-level segment of the fallback walk, for the element whose
reversed path is `k :: restRev`: `tag:nth-child(k+1)` when several
same-tag siblings share the parent (for a valid path,
`siblings.indexOf(current)` is the last path index `k`), plain `tag`
otherwise. -/
def buildSeg (d : DomTree) : Path → PathSeg
  | [] => PathSeg.tagSeg []
  | k :: restRev =>
    let n := nodeAtD d ((k :: restRev).reverse)
    if ((childrenAt d restRev.reverse).filter
          (fun c => c.data.tag == n.tag)).length > 1 then
      PathSeg.tagNth (jsToLower n.tag) (k + 1)
    else
      PathSeg.tagSeg (jsToLower n.tag)

/-- The fallback walk of `generateSelectorForElement`, recursing on the
reversed path (deepest index first) so the ancestor walk is structural:
from the element up to (exclusive) the body, emit `#id` and stop at the
first ancestor with an id, otherwise the `buildSeg` segment. -/
def buildPathAux (d : DomTree) : Path → List PathSeg
  | [] => []
  | k :: restRev =>
    if !(nodeAtD d ((k :: restRev).reverse)).idAttr.isEmpty then
      [.idSeg (nodeAtD d ((k :: restRev).reverse)).idAttr]
    else
      buildPathAux d restRev ++ [buildSeg d (k :: restRev)]

/-- The fallback path of `generateSelectorForElement` for the element at
`p` (segments in top-down order, as `path.unshift` accumulates them). -/
def buildPath (d : DomTree) (p : Path) : List PathSeg :=
  buildPathAux d p.reverse

/-- `generateSelectorForElement(el)`: `#id` if the element has one,
otherwise the first accepted candidate among name / stable classes /
placeholder / type, otherwise the fallback path. -/
def generateSelectorForElement (d : DomTree) (p : Path) : Sel :=
  let n := nodeAtD d p
  if !n.idAttr.isEmpty then Sel.simple (.idSel n.idAttr)
  else
    match tryName d p with
    | some s => s
    | none =>
      match tryClasses d p with
      | some s => s
      | none =>
        match tryPlaceholder d p with
        | some s => s
        | none =>
          match tryType d p with
          | some s => s
          | none => Sel.childPath (buildPath d p)

/-- The string `generateSelectorForElement` returns. -/
def generateSelectorForElementStr (d : DomTree) (p : Path) : Str :=
  renderSel (generateSelectorForElement d p)

/-- `generateSelector(el)`: for a non-input element containing an
input/textarea, synthesize for that inner control first and keep its
selector when non-empty (truthy); otherwise synthesize for the element
itself. -/
def generateSelector (d : DomTree) (p : Path) : Sel :=
  let n := nodeAtD d p
  if n.tag != "INPUT".data && n.tag != "TEXTAREA".data then
    match firstInnerInput d p with
    | some q =>
      let innerSel := generateSelectorForElement d q
      if !(renderSel innerSel).isEmpty then innerSel
      else generateSelectorForElement d p
    | none => generateSelectorForElement d p
  else generateSelectorForElement d p

/-- The string `generateSelector` returns. -/
def generateSelectorStr (d : DomTree) (p : Path) : Str :=
  renderSel (generateSelector d p)

/-- The element `generateSelector` actually synthesized for: the inner
input when the wrapper retarget applied (and produced a truthy selector),
the element itself otherwise. -/
def generateSelectorTarget (d : DomTree) (p : Path) : Path :=
  let n := nodeAtD d p
  if n.tag != "INPUT".data && n.tag != "TEXTAREA".data then
    match firstInnerInput d p with
    | some q =>
      if !(renderSel (generateSelectorForElement d q)).isEmpty then q else p
    | none => p
  else p

/-- Spec-side fallback walk (§4.1 item 7), element-first order, written
from the spec's words: walk ancestors from the element to the document
body, building `tag` or `tag:nth-child(n)` segments — nth-child added
only when multiple same-tag siblings exist under the same parent —
stopping early and switching to an `#id` anchor if an ancestor has an id.
The walk recurses on the reversed path (deepest index first). -/
def specWalkAux (d : DomTree) : Path → List PathSeg
  | [] => []
  | k :: restRev =>
    if !(nodeAtD d ((k :: restRev).reverse)).idAttr.isEmpty then
      [PathSeg.idSeg (nodeAtD d ((k :: restRev).reverse)).idAttr]
    else
      buildSeg d (k :: restRev) :: specWalkAux d restRev

/-- Spec-side fallback segments in top-down order. -/
def specFallbackSegs (d : DomTree) (p : Path) : List PathSeg :=
  (specWalkAux d p.reverse).reverse

/-- The fallback selector as the spec's claim words it: segments joined
with a descendant combinator (a space). -/
def specFallbackSelectorSpace (d : DomTree) (p : Path) : Str :=
  strJoin " ".data ((specFallbackSegs d p).map renderSeg)

/-- The fallback selector as the code actually joins it: segments joined
with the child combinator `" > "`. -/
def specFallbackSelectorChild (d : DomTree) (p : Path) : Str :=
  strJoin " > ".data ((specFallbackSegs d p).map renderSeg)

mutual
/-- Well-formedness of a document: every element has a non-empty tag. -/
def allTagsNonempty : DomTree → Bool
  | .node dt cs => !dt.tag.isEmpty && allTagsNonemptyList cs
/-- `allTagsNonempty` over a child list. -/
def allTagsNonemptyList : List DomTree → Bool
  | [] => true
  | c :: rest => allTagsNonempty c && allTagsNonemptyList rest
end

/-! ## Selector synthesis lemmas -/

theorem nodeAt?_append (d : DomTree) (p q : Path) :
    nodeAt? d (p ++ q) = (nodeAt? d p).bind (fun t => nodeAt? t q) := by
  induction p generalizing d with
  | nil => simp [nodeAt?]
  | cons i rest ih =>
    cases d with
    | node dt cs =>
      simp only [List.cons_append, nodeAt?]
      cases cs[i]? with
      | none => rfl
      | some c => simp [ih]

theorem isSome_nodeAt?_dropLast {d : DomTree} {p : Path}
    (h : (nodeAt? d p).isSome) : (nodeAt? d p.dropLast).isSome := by
  rcases List.eq_nil_or_concat p with rfl | ⟨l, a, rfl⟩
  · exact h
  · rw [List.concat_eq_append] at h ⊢
    rw [nodeAt?_append] at h
    rw [List.dropLast_concat]
    cases hx : nodeAt? d l with
    | none => rw [hx] at h; simp at h
    | some t => simp

theorem mem_of_allTagsNonemptyList {cs : List DomTree} {c : DomTree}
    (h : allTagsNonemptyList cs = true) (hc : c ∈ cs) : allTagsNonempty c = true := by
  induction cs with
  | nil => simp at hc
  | cons x rest ih =>
    rw [allTagsNonemptyList] at h
    rcases List.mem_cons.mp hc with rfl | hc'
    · exact ((Bool.and_eq_true _ _).mp h).1
    · exact ih ((Bool.and_eq_true _ _).mp h).2 hc'

theorem tag_ne_nil_of_wf {d : DomTree} {p : Path} {t : DomTree}
    (hwf : allTagsNonempty d = true) (h : nodeAt? d p = some t) :
    t.data.tag ≠ [] := by
  induction p generalizing d with
  | nil =>
    cases d with
    | node dt cs =>
      rw [nodeAt?] at h
      cases h
      rw [allTagsNonempty] at hwf
      have := ((Bool.and_eq_true _ _).mp hwf).1
      simpa [DomTree.data, List.isEmpty_iff] using this
  | cons i rest ih =>
    cases d with
    | node dt cs =>
      rw [nodeAt?] at h
      cases hc : cs[i]? with
      | none => rw [hc] at h; simp at h
      | some c =>
        rw [hc] at h
        rw [allTagsNonempty] at hwf
        exact ih (mem_of_allTagsNonemptyList ((Bool.and_eq_true _ _).mp hwf).2
          (List.getElem?_mem hc)) h

theorem jsToLower_ne_nil {s : Str} (h : s ≠ []) : jsToLower s ≠ [] := by
  simp only [jsToLower, ne_eq, List.map_eq_nil_iff]
  exact h

theorem segsRevMatch_cons (d : DomTree) (s : PathSeg) (X : List PathSeg)
    (p : Path) (hne : p ≠ []) :
    segsRevMatch d (s :: X) p
      = (segMatches d p s && (X.isEmpty || segsRevMatch d X p.dropLast)) := by
  obtain ⟨h, tl, rfl⟩ := List.exists_cons_of_ne_nil hne
  rfl

theorem segsRevMatch_buildPathAux (d : DomTree) :
    ∀ rev : Path, (nodeAt? d rev.reverse).isSome →
      segsRevMatch d (buildPathAux d rev).reverse rev.reverse = true := by
  intro rev
  induction rev with
  | nil => intro _; rfl
  | cons k rest ih =>
    intro hvalid
    rw [List.reverse_cons] at hvalid
    obtain ⟨t, ht⟩ := Option.isSome_iff_exists.mp hvalid
    have hn : nodeAtD d (rest.reverse ++ [k]) = t.data := by
      simp [nodeAtD, ht]
    have hparent : (nodeAt? d rest.reverse).isSome := by
      have h1 : ((rest.reverse ++ [k]).dropLast) = rest.reverse := List.dropLast_concat
      have h2 := isSome_nodeAt?_dropLast (d := d) (p := rest.reverse ++ [k])
        (by rw [ht]; rfl)
      rwa [h1] at h2
    have hne : rest.reverse ++ [k] ≠ [] := by simp
    have hseg : segMatches d (rest.reverse ++ [k]) (buildSeg d (k :: rest)) = true := by
      simp only [buildSeg, List.reverse_cons, hn]
      split
      · simp [segMatches, ht, List.getLast?_concat]
      · simp [segMatches, ht]
    by_cases hid : t.data.idAttr.isEmpty
    · have hunfold : buildPathAux d (k :: rest)
          = buildPathAux d rest ++ [buildSeg d (k :: rest)] := by
        simp only [buildPathAux, List.reverse_cons, hn]
        simp [hid]
      rw [List.reverse_cons, hunfold, List.reverse_append, List.reverse_singleton,
        List.singleton_append]
      rw [segsRevMatch_cons d _ _ _ hne, hseg]
      rw [List.dropLast_concat]
      simp [ih hparent]
    · have hunfold : buildPathAux d (k :: rest)
          = [.idSeg t.data.idAttr] := by
        simp only [buildPathAux, List.reverse_cons, hn]
        simp [hid]
      rw [List.reverse_cons, hunfold, List.reverse_singleton]
      rw [segsRevMatch_cons d _ _ _ hne]
      simp [segMatches, ht]

theorem buildPathAux_ne_nil (d : DomTree) (k : Nat) (rest : Path) :
    buildPathAux d (k :: rest) ≠ [] := by
  simp only [buildPathAux]
  split <;> simp

theorem selMatches_buildPath (d : DomTree) (p : Path)
    (hv : (nodeAt? d p).isSome) (hp : p ≠ []) :
    selMatches d (Sel.childPath (buildPath d p)) p = true := by
  obtain ⟨k, rest, hk⟩ : ∃ k rest, p.reverse = k :: rest := by
    cases hr : p.reverse with
    | nil =>
      have : p = [] := by simpa using congrArg List.reverse hr
      exact absurd this hp
    | cons k rest => exact ⟨k, rest, rfl⟩
  have hvalid' : (nodeAt? d (p.reverse).reverse).isSome := by
    rw [List.reverse_reverse]; exact hv
  have hmain := segsRevMatch_buildPathAux d p.reverse hvalid'
  rw [List.reverse_reverse] at hmain
  simp only [selMatches, buildPath]
  rw [hmain, hk]
  have hne := buildPathAux_ne_nil d k rest
  simp [List.isEmpty_iff, hne]

theorem selMatches_of_tryName {d : DomTree} {p : Path} {s : Sel}
    (hv : (nodeAt? d p).isSome) (h : tryName d p = some s) :
    selMatches d s p = true ∧ ∃ tg v, s = Sel.simple (.tagAttr tg "name".data v) := by
  obtain ⟨t, ht⟩ := Option.isSome_iff_exists.mp hv
  have hn : nodeAtD d p = t.data := by simp [nodeAtD, ht]
  simp only [tryName, hn] at h
  cases hattr : getAttr t.data "name".data with
  | none => rw [hattr] at h; simp at h
  | some name =>
    rw [hattr] at h
    by_cases hne : name.isEmpty
    · simp [hne] at h
    · simp only [hne, if_false, Bool.false_eq_true] at h
      split at h
      · cases h
        refine ⟨?_, _, _, rfl⟩
        simp [selMatches, simpleMatches, ht, hattr]
      · cases h

theorem selMatches_of_tryPlaceholder {d : DomTree} {p : Path} {s : Sel}
    (hv : (nodeAt? d p).isSome) (h : tryPlaceholder d p = some s) :
    selMatches d s p = true ∧ ∃ tg v, s = Sel.simple (.tagAttr tg "placeholder".data v) := by
  obtain ⟨t, ht⟩ := Option.isSome_iff_exists.mp hv
  have hn : nodeAtD d p = t.data := by simp [nodeAtD, ht]
  simp only [tryPlaceholder, hn] at h
  cases hattr : getAttr t.data "placeholder".data with
  | none => rw [hattr] at h; simp at h
  | some v =>
    rw [hattr] at h
    by_cases hne : v.isEmpty
    · simp [hne] at h
    · simp only [hne, if_false, Bool.false_eq_true] at h
      split at h
      · cases h
        refine ⟨?_, _, _, rfl⟩
        simp [selMatches, simpleMatches, ht, hattr]
      · cases h

theorem selMatches_of_tryType {d : DomTree} {p : Path} {s : Sel}
    (hv : (nodeAt? d p).isSome) (h : tryType d p = some s) :
    selMatches d s p = true ∧ ∃ tg v, s = Sel.simple (.tagAttr tg "type".data v) := by
  obtain ⟨t, ht⟩ := Option.isSome_iff_exists.mp hv
  have hn : nodeAtD d p = t.data := by simp [nodeAtD, ht]
  simp only [tryType, hn] at h
  cases hattr : getAttr t.data "type".data with
  | none => rw [hattr] at h; simp at h
  | some v =>
    rw [hattr] at h
    by_cases hne : v.isEmpty
    · simp [hne] at h
    · simp only [hne, if_false, Bool.false_eq_true] at h
      split at h
      · cases h
        refine ⟨?_, _, _, rfl⟩
        simp [selMatches, simpleMatches, ht, hattr]
      · cases h

theorem selMatches_of_tryClasses {d : DomTree} {p : Path} {s : Sel}
    (hv : (nodeAt? d p).isSome) (h : tryClasses d p = some s) :
    selMatches d s p = true ∧ ∃ tg cs, s = Sel.simple (.tagClasses tg cs) ∧ cs ≠ [] := by
  obtain ⟨t, ht⟩ := Option.isSome_iff_exists.mp hv
  have hn : nodeAtD d p = t.data := by simp [nodeAtD, ht]
  simp only [tryClasses, hn] at h
  by_cases hlen : t.data.classes.length > 0
  · simp only [hlen, if_true] at h
    by_cases hstable : (t.data.classes.filter isStableClass).length > 0
    · simp only [hstable, if_true] at h
      split at h
      · cases h
        have hcs : t.data.classes.filter isStableClass ≠ [] := by
          intro hnil
          rw [hnil] at hstable
          simp at hstable
        refine ⟨?_, _, _, rfl, hcs⟩
        simp only [selMatches, simpleMatches, ht]
        refine (Bool.and_eq_true _ _).mpr ⟨by simp, ?_⟩
        rw [List.all_eq_true]
        intro c hc
        have hmem := (List.mem_filter.mp hc).1
        simpa using hmem
      · cases h
    · simp [hstable] at h
  · simp [hlen] at h

theorem renderSel_buildPath_ne_nil (d : DomTree) (p : Path)
    (hwf : allTagsNonempty d = true) (hv : (nodeAt? d p).isSome) (hp : p ≠ []) :
    renderSel (Sel.childPath (buildPath d p)) ≠ [] := by
  obtain ⟨k, rest, hk⟩ : ∃ k rest, p.reverse = k :: rest := by
    cases hr : p.reverse with
    | nil =>
      have : p = [] := by simpa using congrArg List.reverse hr
      exact absurd this hp
    | cons k rest => exact ⟨k, rest, rfl⟩
  obtain ⟨t, ht⟩ := Option.isSome_iff_exists.mp hv
  have htag : t.data.tag ≠ [] := tag_ne_nil_of_wf hwf ht
  have hteq : nodeAtD d (rest.reverse ++ [k]) = t.data := by
    have : rest.reverse ++ [k] = p := by
      rw [← List.reverse_cons, ← hk, List.reverse_reverse]
    rw [this]
    simp [nodeAtD, ht]
  simp only [renderSel, buildPath, hk]
  rw [buildPathAux]
  split
  · simp [renderSeg, strJoin]
  · cases hA : buildPathAux d rest with
    | nil =>
      simp only [hA, List.nil_append, List.map_cons, List.map_nil]
      rw [strJoin]
      simp only [buildSeg, List.reverse_cons, hteq]
      split
      · simp [renderSeg]
      · simp only [renderSeg]
        exact jsToLower_ne_nil htag
    | cons a A' =>
      rw [List.cons_append, List.map_cons]
      cases hm : (A' ++ [buildSeg d (k :: rest)]).map renderSeg with
      | nil => simp at hm
      | cons b B =>
        simp only [strJoin]
        simp

theorem firstInnerInput_valid {d : DomTree} {p q : Path}
    (h : firstInnerInput d p = some q) :
    (nodeAt? d q).isSome ∧ q ≠ [] ∧ ∃ qt, nodeAt? d q = some qt ∧ isInputLike qt.data = true := by
  simp only [firstInnerInput] at h
  cases ht : nodeAt? d p with
  | none => rw [ht] at h; simp at h
  | some t =>
    rw [ht] at h
    simp only [Option.map_eq_some'] at h
    obtain ⟨q', hq', rfl⟩ := h
    have hmem : q' ∈ (allPaths t).filter (innerInputPred t) := by
      cases hl : (allPaths t).filter (innerInputPred t) with
      | nil => rw [hl] at hq'; simp at hq'
      | cons x xs =>
        rw [hl] at hq'
        simp only [List.head?_cons, Option.some.injEq] at hq'
        rw [← hq']
        exact List.mem_cons_self x xs
    have hpred := (List.mem_filter.mp hmem).2
    rw [innerInputPred] at hpred
    obtain ⟨hne', hinput⟩ := (Bool.and_eq_true _ _).mp hpred
    have hq'ne : q' ≠ [] := by
      intro hnil; rw [hnil] at hne'; simp at hne'
    have hsome : ∃ c, nodeAt? t q' = some c ∧ isInputLike c.data = true := by
      cases hc : nodeAt? t q' with
      | none => rw [hc] at hinput; simp at hinput
      | some c => rw [hc] at hinput; exact ⟨c, rfl, hinput⟩
    obtain ⟨c, hc, hcin⟩ := hsome
    have hnode : nodeAt? d (p ++ q') = some c := by
      rw [nodeAt?_append, ht]
      simpa using hc
    refine ⟨by rw [hnode]; rfl, ?_, c, hnode, hcin⟩
    intro hnil
    exact hq'ne (List.append_eq_nil.mp hnil).2

/-- Per-element contract: for a valid non-body element of a well-formed
document, `generateSelectorForElement` returns a non-empty selector string
and a selector the element itself matches. -/
theorem generateSelectorForElement_good (d : DomTree) (p : Path)
    (hwf : allTagsNonempty d = true) (hv : (nodeAt? d p).isSome) (hp : p ≠ []) :
    generateSelectorForElementStr d p ≠ [] ∧
    selMatches d (generateSelectorForElement d p) p = true := by
  obtain ⟨t, ht⟩ := Option.isSome_iff_exists.mp hv
  have hn : nodeAtD d p = t.data := by simp [nodeAtD, ht]
  rw [generateSelectorForElementStr, generateSelectorForElement, hn]
  by_cases hid : t.data.idAttr.isEmpty
  · simp only [hid, Bool.not_true, Bool.false_eq_true, if_false]
    cases h1 : tryName d p with
    | some s =>
      obtain ⟨hm, tg, v, rfl⟩ := selMatches_of_tryName hv h1
      exact ⟨by simp [renderSel, renderSimple], hm⟩
    | none =>
      cases h2 : tryClasses d p with
      | some s =>
        obtain ⟨hm, tg, cs, rfl, hcs⟩ := selMatches_of_tryClasses hv h2
        refine ⟨?_, hm⟩
        obtain ⟨c0, cs', rfl⟩ := List.exists_cons_of_ne_nil hcs
        simp [renderSel, renderSimple]
      | none =>
        cases h3 : tryPlaceholder d p with
        | some s =>
          obtain ⟨hm, tg, v, rfl⟩ := selMatches_of_tryPlaceholder hv h3
          exact ⟨by simp [renderSel, renderSimple], hm⟩
        | none =>
          cases h4 : tryType d p with
          | some s =>
            obtain ⟨hm, tg, v, rfl⟩ := selMatches_of_tryType hv h4
            exact ⟨by simp [renderSel, renderSimple], hm⟩
          | none =>
            exact ⟨renderSel_buildPath_ne_nil d p hwf hv hp,
              selMatches_buildPath d p hv hp⟩
  · simp only [hid, Bool.not_false, if_true]
    constructor
    · simp [renderSel, renderSimple]
    · simp [selMatches, simpleMatches, ht]

/-- A document whose body is empty and attribute-free. -/
def bodyOnlyDoc : DomTree := .node ⟨"BODY".data, [], [], []⟩ []

/-- A body containing one div containing one span, all attribute-free. -/
def docDivSpan : DomTree :=
  .node ⟨"BODY".data, [], [], []⟩
    [.node ⟨"DIV".data, [], [], []⟩
      [.node ⟨"SPAN".data, [], [], []⟩ []]]

/-- A body containing one input with an id. -/
def docIdInput : DomTree :=
  .node ⟨"BODY".data, [], [], []⟩
    [.node ⟨"INPUT".data, "user-name".data, [], []⟩ []]

/-- C3 (counterexample): `synthesize(document.body)` on a body with no
id, no accepted attribute candidate and no inner input returns the empty
string, contradicting the guaranteed-non-empty contract. -/
theorem generateSelector_body_empty :
    generateSelectorStr bodyOnlyDoc [] = [] := by decide

/-- C3 (amended): for every element of a well-formed document other than
`document.body` itself, `synthesize` returns a non-empty selector that
resolves to at least the element synthesis targeted — the inner
input/textarea when the wrapper retarget applied, the given element
otherwise.  (For `document.body` with nothing to anchor on, the result
can be the empty string.) -/
theorem generateSelector_contract (d : DomTree) (p : Path)
    (hwf : allTagsNonempty d = true) (hv : (nodeAt? d p).isSome) (hp : p ≠ []) :
    generateSelectorStr d p ≠ [] ∧
    (nodeAt? d (generateSelectorTarget d p)).isSome ∧
    selMatches d (generateSelector d p) (generateSelectorTarget d p) = true := by
  obtain ⟨hstr, hmatch⟩ := generateSelectorForElement_good d p hwf hv hp
  simp only [generateSelectorStr, generateSelector, generateSelectorTarget]
  by_cases hin : (((nodeAtD d p).tag != "INPUT".data)
      && ((nodeAtD d p).tag != "TEXTAREA".data)) = true
  · simp only [hin, if_true]
    cases hfi : firstInnerInput d p with
    | none => exact ⟨hstr, hv, hmatch⟩
    | some q =>
      obtain ⟨hqv, hqne, _⟩ := firstInnerInput_valid hfi
      obtain ⟨hqstr, hqmatch⟩ := generateSelectorForElement_good d q hwf hqv hqne
      have hemp : (renderSel (generateSelectorForElement d q)).isEmpty = false := by
        cases hx : (renderSel (generateSelectorForElement d q)).isEmpty
        · rfl
        · exact absurd (List.isEmpty_iff.mp hx) hqstr
      simp only [hemp, Bool.not_false, if_true]
      exact ⟨hqstr, hqv, hqmatch⟩
  · simp only [hin, Bool.false_eq_true, if_false]
    exact ⟨hstr, hv, hmatch⟩

/-- Witness for `generateSelector_contract` on a concrete document: the
input child of the body gets the non-empty selector `#user-name`, which
it matches. -/
theorem generateSelector_contract_witness :
    allTagsNonempty docIdInput = true ∧ (nodeAt? docIdInput [0]).isSome ∧
    ([0] : Path) ≠ [] ∧
    (generateSelectorStr docIdInput [0] ≠ [] ∧
     (nodeAt? docIdInput (generateSelectorTarget docIdInput [0])).isSome ∧
     selMatches docIdInput (generateSelector docIdInput [0])
       (generateSelectorTarget docIdInput [0]) = true) :=
  ⟨by decide, by decide, by decide,
   generateSelector_contract docIdInput [0] (by decide) (by decide) (by decide)⟩

theorem buildPathAux_eq_specWalkAux (d : DomTree) (rev : Path) :
    buildPathAux d rev = (specWalkAux d rev).reverse := by
  induction rev with
  | nil => rfl
  | cons k rest ih =>
    rw [buildPathAux, specWalkAux]
    by_cases hid : (nodeAtD d ((k :: rest).reverse)).idAttr.isEmpty = true
    · simp only [hid, Bool.not_true, Bool.false_eq_true, if_false]
      rw [List.reverse_cons, ih]
    · have hid' := eq_false_of_ne_true hid
      simp only [hid', Bool.not_false, if_true, List.reverse_singleton]

theorem specFallbackSegs_eq_buildPath (d : DomTree) (p : Path) :
    specFallbackSegs d p = buildPath d p := by
  rw [specFallbackSegs, buildPath, buildPathAux_eq_specWalkAux]

/-- C4 (counterexample): for the span inside `docDivSpan` the code's
fallback selector is `div > span` (child combinator), not the
space-joined `div span` the claim describes. -/
theorem fallback_join_not_space :
    generateSelectorForElementStr docDivSpan [0, 0] = "div > span".data ∧
    specFallbackSelectorSpace docDivSpan [0, 0] = "div span".data ∧
    "div > span".data ≠ "div span".data := by decide

/-- C4 (amended): in the fallback branch (element without id and with
every id/name/class/placeholder/type candidate rejected), the selector is
exactly the spec's ancestor walk — `tag` or `tag:nth-child(n)` segments
with nth-child only under multiple same-tag siblings, stopping at an
`#id` anchor — but joined with the child combinator `" > "`, not a
space. -/
theorem fallback_selector_child_join (d : DomTree) (p : Path)
    (hid : (nodeAtD d p).idAttr.isEmpty = true)
    (h1 : tryName d p = none) (h2 : tryClasses d p = none)
    (h3 : tryPlaceholder d p = none) (h4 : tryType d p = none) :
    generateSelectorForElementStr d p = specFallbackSelectorChild d p := by
  rw [generateSelectorForElementStr, generateSelectorForElement]
  simp only [hid, Bool.not_true, Bool.false_eq_true, if_false, h1, h2, h3, h4]
  rw [specFallbackSelectorChild, specFallbackSegs_eq_buildPath]
  rfl

/-- Witness for `fallback_selector_child_join` at the concrete span of
`docDivSpan`. -/
theorem fallback_selector_child_join_witness :
    (nodeAtD docDivSpan [0, 0]).idAttr.isEmpty = true ∧
    tryName docDivSpan [0, 0] = none ∧ tryClasses docDivSpan [0, 0] = none ∧
    tryPlaceholder docDivSpan [0, 0] = none ∧ tryType docDivSpan [0, 0] = none ∧
    generateSelectorForElementStr docDivSpan [0, 0]
      = specFallbackSelectorChild docDivSpan [0, 0] :=
  ⟨by decide, by decide, by decide, by decide, by decide,
   fallback_selector_child_join docDivSpan [0, 0] (by decide) (by decide)
     (by decide) (by decide) (by decide)⟩

/-! ## Element waiting (`waitForElement`, `src/content/switcher.ts`)

Time is modelled in milliseconds; `doc t` is the document at instant `t`.
A selector argument of `none` models a syntactically malformed selector
string: `document.querySelector` throws on it, and since the query on
line 15 of `switcher.ts` runs unguarded inside the promise executor, the
returned promise rejects (`Except.error`). -/

/-- Embeds `waitForElement(selector, timeout)` called at instant `start`:
returns immediately when the selector already resolves; otherwise the
`MutationObserver` yields the first resolution strictly inside the
timeout window, and the `setTimeout` fires with `null` exactly at
`start + timeout`. -/
def waitForElement (doc : Nat → DomTree) (sel : Option Sel)
    (timeout : Nat) (start : Nat) : Except Unit (Option Path × Nat) :=
  match sel with
  | none => .error ()
  | some s =>
    match querySel (doc start) s with
    | some p => .ok (some p, start)
    | none =>
      match (List.range (timeout - 1)).findSome?
          (fun ms => (querySel (doc (start + 1 + ms)) s).map
            (fun p => (p, start + 1 + ms))) with
      | some (p, t) => .ok (some p, t)
      | none => .ok (none, start + timeout)

/-- The success boolean of `fillField`: the try/catch converts a rejected
`waitForElement` into `false`; a missing element or missing input-like
control (directly or among descendants) is `false`; otherwise the value
is assigned and events dispatched, and the result is `true`. -/
def fillFieldRes (doc : Nat → DomTree) (start : Nat) (fieldSel : Option Sel) : Bool :=
  match waitForElement doc fieldSel 5000 start with
  | .error _ => false
  | .ok (none, _) => false
  | .ok (some p, t) =>
    match nodeAt? (doc t) p with
    | none => false
    | some el =>
      if isInputLike el.data then true
      else
        match firstInnerInput (doc t) p with
        | some _ => true
        | none => false

/-- C5 (counterexample): on a malformed selector `waitForElement`'s
promise rejects — it does raise, contradicting the never-raises claim. -/
theorem waitForElement_malformed_raises :
    waitForElement (fun _ => bodyOnlyDoc) none 5000 0 = .error () := rfl

/-- C5 (amended): for a well-formed selector, `waitForElement` returns
the matching element immediately when the selector already resolves, and
returns the absent value exactly at `start + timeout` (not earlier) when
the selector never resolves; a malformed selector, however, makes the
returned promise reject — its callers (here `fillField`) catch that
rejection and report failure instead of crashing. -/
theorem waitForElement_contract :
    (∀ (doc : Nat → DomTree) (s : Sel) (timeout start : Nat) (p : Path),
      querySel (doc start) s = some p →
      waitForElement doc (some s) timeout start = .ok (some p, start))
    ∧ (∀ (doc : Nat → DomTree) (s : Sel) (timeout start : Nat),
      (∀ t, querySel (doc t) s = none) →
      waitForElement doc (some s) timeout start = .ok (none, start + timeout))
    ∧ (∀ (doc : Nat → DomTree) (timeout start : Nat),
      waitForElement doc none timeout start = .error ())
    ∧ (∀ (doc : Nat → DomTree) (start : Nat),
      fillFieldRes doc start none = false) := by
  refine ⟨?_, ?_, fun _ _ _ => rfl, fun _ _ => rfl⟩
  · intro doc s timeout start p h
    simp [waitForElement, h]
  · intro doc s timeout start h
    have hfind : (List.range (timeout - 1)).findSome?
        (fun ms => (querySel (doc (start + 1 + ms)) s).map
          (fun p => (p, start + 1 + ms))) = none := by
      rw [List.findSome?_eq_none_iff]
      intro ms _
      rw [h (start + 1 + ms)]
      rfl
    simp [waitForElement, h start, hfind]

/-- Witness for `waitForElement_contract`: an already-present element is
returned immediately; a never-present selector resolves to absent exactly
at the timeout. -/
theorem waitForElement_contract_witness :
    querySel docIdInput (Sel.simple (.idSel "user-name".data)) = some [0] ∧
    waitForElement (fun _ => docIdInput)
      (some (Sel.simple (.idSel "user-name".data))) 5000 0 = .ok (some [0], 0) ∧
    waitForElement (fun _ => bodyOnlyDoc)
      (some (Sel.simple (.idSel "x".data))) 5000 0 = .ok (none, 0 + 5000) := by
  refine ⟨by decide,
    waitForElement_contract.1 (fun _ => docIdInput) _ 5000 0 [0] (by decide),
    waitForElement_contract.2.1 (fun _ => bodyOnlyDoc) (Sel.simple (.idSel "x".data)) 5000 0 ?_⟩
  intro t
  show querySel bodyOnlyDoc (Sel.simple (.idSel "x".data)) = none
  decide

/-! ## Interactive picker (element-selector content module)

The module-level mutable state (`isSelecting`, `onSelectCallback`,
`currentHighlighted`, the `originalStyles` WeakMap), the document's
inline styles, the capture-phase listener registrations and the body
cursor are collected in one state record; each handler is embedded as a
state transformer.  Callback identity is an opaque handle (`Nat`). -/

/-- The three inline style properties the highlight touches. -/
structure InlineStyle where
  outline : Str
  outlineOffset : Str
  backgroundColor : Str
deriving DecidableEq, Repr

instance : Inhabited InlineStyle := ⟨⟨[], [], []⟩⟩

/-- `HIGHLIGHT_STYLE` from the source. -/
def HIGHLIGHT_STYLE : InlineStyle :=
  ⟨"2px solid #3b82f6".data, "2px".data, "rgba(59, 130, 246, 0.1)".data⟩

/-- Association-map read (`WeakMap.get` / inline-style read). -/
def assocGet (m : List (Path × InlineStyle)) (k : Path) : Option InlineStyle :=
  (m.find? (fun kv => kv.1 == k)).map (·.2)

/-- Association-map delete (`WeakMap.delete`). -/
def assocErase (m : List (Path × InlineStyle)) (k : Path) : List (Path × InlineStyle) :=
  m.filter (fun kv => !(kv.1 == k))

/-- Association-map write (`WeakMap.set` / inline-style write). -/
def assocSet (m : List (Path × InlineStyle)) (k : Path) (v : InlineStyle) :
    List (Path × InlineStyle) :=
  (k, v) :: assocErase m k

/-- Capture-phase listener registrations (mousemove, click, keydown). -/
structure Listeners where
  mousemove : Bool
  click : Bool
  keydown : Bool
deriving DecidableEq, Repr

/-- The picker's world: module state, DOM inline styles, listeners,
body cursor. -/
structure PickerWorld where
  isSelecting : Bool
  onSelectCallback : Option Nat
  currentHighlighted : Option Path
  originalStyles : List (Path × InlineStyle)
  inlineStyles : List (Path × InlineStyle)
  listeners : Listeners
  bodyCursor : Str
deriving DecidableEq, Repr

/-- An element's effective inline style (absent entries read as `""`
values, as `el.style.x` does). -/
def inlineGet (w : PickerWorld) (p : Path) : InlineStyle :=
  (assocGet w.inlineStyles p).getD default

/-- `addHighlight(el)`: snapshot the element's current inline style into
`originalStyles`, then apply `HIGHLIGHT_STYLE`. -/
def addHighlight (w : PickerWorld) (el : Path) : PickerWorld :=
  { w with
    originalStyles := assocSet w.originalStyles el (inlineGet w el),
    inlineStyles := assocSet w.inlineStyles el HIGHLIGHT_STYLE }

/-- `removeHighlight(el)`: restore the snapshot's three properties and
delete the snapshot entry; a no-op when no snapshot is stored. -/
def removeHighlight (w : PickerWorld) (el : Path) : PickerWorld :=
  match assocGet w.originalStyles el with
  | some original =>
    { w with
      inlineStyles := assocSet w.inlineStyles el original,
      originalStyles := assocErase w.originalStyles el }
  | none => w

/-- `stopSelecting()`: clear the flag and callback, un-highlight, remove
the three listeners, restore the cursor. -/
def stopSelecting (w : PickerWorld) : PickerWorld :=
  let w1 := { w with isSelecting := false, onSelectCallback := none }
  let w2 :=
    match w1.currentHighlighted with
    | some el => { removeHighlight w1 el with currentHighlighted := none }
    | none => w1
  { w2 with listeners := ⟨false, false, false⟩, bodyCursor := [] }

/-- `startSelecting(callback)`: a still-active session is stopped first;
then the flag, callback, listeners and crosshair cursor are set. -/
def startSelecting (w : PickerWorld) (callback : Nat) : PickerWorld :=
  let w1 := if w.isSelecting then stopSelecting w else w
  { w1 with isSelecting := true, onSelectCallback := some callback,
            listeners := ⟨true, true, true⟩, bodyCursor := "crosshair".data }

/-- `handleMouseMove`: outside the extension UI, un-highlight the previous
element (when different) and highlight the new hover target. -/
def handleMouseMove (w : PickerWorld) (target : Path) (insideUi : Bool) : PickerWorld :=
  if insideUi then w
  else
    let w1 :=
      match w.currentHighlighted with
      | some cur => if cur ≠ target then removeHighlight w cur else w
      | none => w
    if w.currentHighlighted ≠ some target then
      { addHighlight w1 target with currentHighlighted := some target }
    else w1

/-- The externally observable steps of a click: the idle transition, then
(possibly) the commit-callback invocation. -/
inductive PickerAction
  | teardown
  | invoke (cb : Nat) (sel : Sel)
deriving DecidableEq, Repr

/-- `handleClick`: outside the extension UI, synthesize a selector for
the target, save the callback reference, stop the session, then invoke
the saved callback (if one was registered) with the selector. -/
def handleClick (d : DomTree) (w : PickerWorld) (target : Path) (insideUi : Bool) :
    PickerWorld × List PickerAction :=
  if insideUi then (w, [])
  else
    let selector := generateSelector d target
    let callback := w.onSelectCallback
    let w' := stopSelecting w
    match callback with
    | some cb => (w', [.teardown, .invoke cb selector])
    | none => (w', [.teardown])

/-- `handleKeyDown`: Escape cancels the session. -/
def handleKeyDown (w : PickerWorld) (key : Str) : PickerWorld :=
  if key == "Escape".data then stopSelecting w else w

theorem assocGet_erase_self (m : List (Path × InlineStyle)) (k : Path) :
    assocGet (assocErase m k) k = none := by
  induction m with
  | nil => rfl
  | cons kv rest ih =>
    by_cases hk : kv.1 = k
    · have hkb : (kv.1 == k) = true := by simpa using hk
      simp only [assocErase, List.filter_cons, hkb, Bool.not_true, Bool.false_eq_true,
        if_false]
      simpa [assocErase] using ih
    · simp only [assocErase, List.filter_cons]
      by_cases hkb : (kv.1 == k) = true
      · exact absurd (by simp at hkb; exact hkb) hk
      · simp only [hkb]
        simp only [Bool.not_false, if_true]
        simp only [assocGet, List.find?_cons, hkb]
        simpa [assocGet, assocErase] using ih

theorem assocGet_set_self (m : List (Path × InlineStyle)) (k : Path) (v : InlineStyle) :
    assocGet (assocSet m k v) k = some v := by
  simp [assocGet, assocSet, List.find?_cons]

theorem assocGet_erase_ne (m : List (Path × InlineStyle)) (k q : Path) (h : q ≠ k) :
    assocGet (assocErase m k) q = assocGet m q := by
  induction m with
  | nil => rfl
  | cons kv rest ih =>
    by_cases hkb : (kv.1 == k) = true
    · have hq : (kv.1 == q) = false := by
        have : kv.1 = k := by simpa using hkb
        simp [this, (Ne.symm h)]
      simp only [assocErase, List.filter_cons, hkb, Bool.not_true, Bool.false_eq_true,
        if_false]
      simp only [assocGet, List.find?_cons, hq, Bool.false_eq_true, if_false]
      simpa [assocGet, assocErase] using ih
    · simp only [assocErase, List.filter_cons, hkb, Bool.not_false, if_true]
      simp only [assocGet, List.find?_cons]
      by_cases hq : (kv.1 == q) = true
      · simp [hq]
      · simp only [hq, Bool.false_eq_true, if_false]
        simpa [assocGet, assocErase] using ih

theorem assocGet_set_ne (m : List (Path × InlineStyle)) (k q : Path) (v : InlineStyle)
    (h : q ≠ k) :
    assocGet (assocSet m k v) q = assocGet m q := by
  have hq : (k == q) = false := by simp [Ne.symm h]
  simp only [assocSet, assocGet, List.find?_cons, hq, Bool.false_eq_true, if_false]
  simpa [assocGet] using assocGet_erase_ne m k q h

/-- C10: adding then removing a highlight restores the element's inline
outline, outline-offset and background-color exactly, leaves every other
element's inline style unchanged, and deletes the snapshot entry; and
`removeHighlight` on an element with no stored snapshot is a no-op on the
whole world. -/
theorem highlight_roundtrip :
    (∀ (w : PickerWorld) (el : Path),
      inlineGet (removeHighlight (addHighlight w el) el) el = inlineGet w el
      ∧ (∀ q, q ≠ el → inlineGet (removeHighlight (addHighlight w el) el) q = inlineGet w q)
      ∧ assocGet (removeHighlight (addHighlight w el) el).originalStyles el = none)
    ∧ (∀ (w : PickerWorld) (el : Path),
      assocGet w.originalStyles el = none → removeHighlight w el = w) := by
  constructor
  · intro w el
    have hsnap : assocGet (addHighlight w el).originalStyles el = some (inlineGet w el) := by
      simp [addHighlight, assocGet_set_self]
    have hrm : removeHighlight (addHighlight w el) el =
        { addHighlight w el with
          inlineStyles := assocSet (addHighlight w el).inlineStyles el (inlineGet w el),
          originalStyles := assocErase (addHighlight w el).originalStyles el } := by
      rw [removeHighlight, hsnap]
    refine ⟨?_, ?_, ?_⟩
    · rw [hrm]
      simp [inlineGet, assocGet_set_self]
    · intro q hq
      rw [hrm]
      simp only [inlineGet, addHighlight]
      rw [assocGet_set_ne _ _ _ _ hq, assocGet_set_ne _ _ _ _ hq]
    · rw [hrm]
      simp [assocGet_erase_self]
  · intro w el h
    rw [removeHighlight, h]

theorem removeHighlight_isSelecting (w : PickerWorld) (el : Path) :
    (removeHighlight w el).isSelecting = w.isSelecting := by
  rw [removeHighlight]; cases assocGet w.originalStyles el <;> rfl

theorem removeHighlight_onSelectCallback (w : PickerWorld) (el : Path) :
    (removeHighlight w el).onSelectCallback = w.onSelectCallback := by
  rw [removeHighlight]; cases assocGet w.originalStyles el <;> rfl

theorem stopSelecting_fields (w : PickerWorld) :
    (stopSelecting w).listeners = ⟨false, false, false⟩
    ∧ (stopSelecting w).isSelecting = false
    ∧ (stopSelecting w).onSelectCallback = none
    ∧ (stopSelecting w).currentHighlighted = none
    ∧ (stopSelecting w).bodyCursor = [] := by
  cases hh : w.currentHighlighted with
  | none => simp [stopSelecting, hh]
  | some el =>
    simp [stopSelecting, hh, removeHighlight_isSelecting, removeHighlight_onSelectCallback]

theorem stopSelecting_of_idle (v : PickerWorld)
    (h1 : v.isSelecting = false) (h2 : v.onSelectCallback = none)
    (h3 : v.currentHighlighted = none) (h4 : v.listeners = ⟨false, false, false⟩)
    (h5 : v.bodyCursor = []) : stopSelecting v = v := by
  cases v
  simp_all [stopSelecting]

/-- C7: the picker keeps a single-session discipline: a click outside the
extension UI leaves the state fully torn down (equal to `stopSelecting`),
its action list starts with the teardown and contains an invocation only
when a callback was registered (then exactly the teardown followed by the
invocation with the synthesized selector); Escape tears down without any
invocation; `start` during an active session routes through a full
teardown; and `stop` is idempotent and leaves no listeners, callback or
highlight registered. -/
theorem picker_state_machine :
    (∀ (d : DomTree) (w : PickerWorld) (target : Path),
      (handleClick d w target false).1 = stopSelecting w)
    ∧ (∀ (d : DomTree) (w : PickerWorld) (target : Path),
      (handleClick d w target false).2.head? = some PickerAction.teardown)
    ∧ (∀ (d : DomTree) (w : PickerWorld) (target : Path) (cb : Nat) (s : Sel),
      w.onSelectCallback = none →
      PickerAction.invoke cb s ∉ (handleClick d w target false).2)
    ∧ (∀ (d : DomTree) (w : PickerWorld) (target : Path) (cb : Nat),
      w.onSelectCallback = some cb →
      (handleClick d w target false).2
        = [PickerAction.teardown, PickerAction.invoke cb (generateSelector d target)])
    ∧ (∀ w : PickerWorld, handleKeyDown w "Escape".data = stopSelecting w)
    ∧ (∀ (w : PickerWorld) (cb : Nat), w.isSelecting = true →
      startSelecting w cb
        = { stopSelecting w with
            isSelecting := true
            onSelectCallback := some cb
            listeners := ⟨true, true, true⟩
            bodyCursor := "crosshair".data })
    ∧ (∀ w : PickerWorld, stopSelecting (stopSelecting w) = stopSelecting w)
    ∧ (∀ w : PickerWorld, (stopSelecting w).listeners = ⟨false, false, false⟩
        ∧ (stopSelecting w).isSelecting = false
        ∧ (stopSelecting w).onSelectCallback = none
        ∧ (stopSelecting w).currentHighlighted = none) := by
  refine ⟨?_, ?_, ?_, ?_, ?_, ?_, ?_, ?_⟩
  · intro d w target
    cases hcb : w.onSelectCallback <;> simp [handleClick, hcb]
  · intro d w target
    cases hcb : w.onSelectCallback <;> simp [handleClick, hcb]
  · intro d w target cb s h
    simp [handleClick, h]
  · intro d w target cb h
    simp [handleClick, h]
  · intro w
    simp [handleKeyDown]
  · intro w cb h
    simp [startSelecting, h]
  · intro w
    obtain ⟨hl, hs, hc, hh, hcur⟩ := stopSelecting_fields w
    exact stopSelecting_of_idle _ hs hc hh hl hcur
  · intro w
    obtain ⟨hl, hs, hc, hh, _⟩ := stopSelecting_fields w
    exact ⟨hl, hs, hc, hh⟩

/-- A concrete picker world with one styled element and no snapshot. -/
def pickW : PickerWorld :=
  ⟨false, none, none, [], [([0], ⟨"1px".data, [], []⟩)], ⟨false, false, false⟩, []⟩

/-- A concrete picker world in an active selecting session. -/
def pickW2 : PickerWorld :=
  ⟨true, some 7, none, [], [], ⟨true, true, true⟩, "crosshair".data⟩

/-- Witness for `highlight_roundtrip` at a concrete world and elements. -/
theorem highlight_roundtrip_witness :
    inlineGet (removeHighlight (addHighlight pickW [0]) [0]) [0] = inlineGet pickW [0] ∧
    ([1] : Path) ≠ [0] ∧
    inlineGet (removeHighlight (addHighlight pickW [0]) [0]) [1] = inlineGet pickW [1] ∧
    assocGet pickW.originalStyles [0] = none ∧
    removeHighlight pickW [0] = pickW :=
  ⟨(highlight_roundtrip.1 pickW [0]).1,
   by decide,
   (highlight_roundtrip.1 pickW [0]).2.1 [1] (by decide),
   by decide,
   highlight_roundtrip.2 pickW [0] (by decide)⟩

/-- Witness for `picker_state_machine` at a concrete selecting world. -/
theorem picker_state_machine_witness :
    pickW2.onSelectCallback = some 7 ∧ pickW2.isSelecting = true ∧
    (handleClick docDivSpan pickW2 [0, 0] false).2
      = [PickerAction.teardown, PickerAction.invoke 7 (generateSelector docDivSpan [0, 0])] ∧
    startSelecting pickW2 5
      = { stopSelecting pickW2 with
          isSelecting := true
          onSelectCallback := some 5
          listeners := ⟨true, true, true⟩
          bodyCursor := "crosshair".data } :=
  ⟨rfl, rfl,
   picker_state_machine.2.2.2.1 docDivSpan pickW2 [0, 0] 7 rfl,
   picker_state_machine.2.2.2.2.2.1 pickW2 5 rfl⟩

end EnvChange
